import Mathlib

/-!
Verification of the template provisioning and materialization engine of the
bevy_editor crate. Definitions are shallow embeddings of the Rust source in
src/crates/bevy_editor/src (templater.rs and lib.rs): byte contents become
lists of naturals, strings become lists of characters, the filesystem becomes
an association list from relative output paths to contents, and the tera
rendering engine (whose substitution grammar is out of scope per the
specification) is an abstract parameter.
-/

/-- Raw byte content, each entry a byte value below 256. -/
abbrev Bytes := List Nat

/-- Bytes of an ASCII string literal, used for concrete test inputs. -/
def strBytes (s : String) : Bytes := s.data.map Char.toNat

/-- Strict UTF-8 validation and decoding, modelling Rust String::from_utf8
and read_to_string: returns none exactly on invalid UTF-8 byte sequences
(bad continuation bytes, overlong forms, surrogates and out-of-range values
are refused). -/
def utf8Dec : Bytes → Option (List Char)
  | [] => some []
  | b :: rest =>
    if b < 0x80 then (utf8Dec rest).map (fun cs => Char.ofNat b :: cs)
    else if b < 0xC2 then none
    else if b ≤ 0xDF then
      match rest with
      | c1 :: rest2 =>
        if 0x80 ≤ c1 ∧ c1 ≤ 0xBF then
          (utf8Dec rest2).map (fun cs => Char.ofNat ((b - 0xC0) * 0x40 + (c1 - 0x80)) :: cs)
        else none
      | [] => none
    else if b ≤ 0xEF then
      match rest with
      | c1 :: c2 :: rest2 =>
        if (0x80 ≤ c1 ∧ c1 ≤ 0xBF) ∧ (0x80 ≤ c2 ∧ c2 ≤ 0xBF)
            ∧ (b = 0xE0 → 0xA0 ≤ c1) ∧ (b = 0xED → c1 ≤ 0x9F) then
          (utf8Dec rest2).map
            (fun cs => Char.ofNat ((b - 0xE0) * 0x1000 + (c1 - 0x80) * 0x40 + (c2 - 0x80)) :: cs)
        else none
      | _ => none
    else if b ≤ 0xF4 then
      match rest with
      | c1 :: c2 :: c3 :: rest2 =>
        if (0x80 ≤ c1 ∧ c1 ≤ 0xBF) ∧ (0x80 ≤ c2 ∧ c2 ≤ 0xBF) ∧ (0x80 ≤ c3 ∧ c3 ≤ 0xBF)
            ∧ (b = 0xF0 → 0x90 ≤ c1) ∧ (b = 0xF4 → c1 ≤ 0x8F) then
          (utf8Dec rest2).map
            (fun cs =>
              Char.ofNat
                ((b - 0xF0) * 0x40000 + (c1 - 0x80) * 0x1000
                  + (c2 - 0x80) * 0x40 + (c3 - 0x80)) :: cs)
        else none
      | _ => none
    else none

/-- First-occurrence substring split, modelling Rust str::split_once with a
nonempty pattern: the text before and after the first occurrence of the
pattern, or none when the pattern does not occur. -/
def splitOnce (pat : List Char) : List Char → Option (List Char × List Char)
  | [] => none
  | c :: rest =>
    if pat.isPrefixOf (c :: rest) then some ([], (c :: rest).drop pat.length)
    else
      match splitOnce pat rest with
      | some (pre, post) => some (c :: pre, post)
      | none => none

/-- The reserved substitution-marker suffix. -/
def teraPat : List Char := ".tera".data

/-- Insert-or-replace on an association list keyed by path strings; models
both HashMap::insert and Tera template registration (last writer wins). -/
def upsert {α : Type} (k : List Char) (v : α) :
    List (List Char × α) → List (List Char × α)
  | [] => [(k, v)]
  | (k2, v2) :: rest => if k2 = k then (k, v) :: rest else (k2, v2) :: upsert k v rest

/-- Lookup on an association list keyed by path strings. -/
def lookupA {α : Type} (k : List Char) : List (List Char × α) → Option α
  | [] => none
  | (k2, v) :: rest => if k2 = k then some v else lookupA k rest

/-- Map from template name to tera source text, modelling the registry kept
by the Tera engine. -/
abbrev TeraMap := List (List Char × List Char)

/-- The variable context: a flat map from variable name to string value. -/
abbrev Ctx := List (List Char × List Char)

/-- The abstract tera rendering capability (its grammar is out of scope per
the specification): given a registry, a template name and a context, produce
output bytes or fail. -/
abbrev TeraRender := TeraMap → List Char → Ctx → Option Bytes

/-- Templater from templater.rs: a tera registry for text templates plus a
map from name to raw bytes for binary files. -/
structure Templater where
  tera : TeraMap
  binaries : List (List Char × Bytes)
  deriving DecidableEq

/-- Templater::default: both maps empty. -/
def Templater.default : Templater := ⟨[], []⟩

/-- Templater::add_raw_template from templater.rs lines 74 to 96: when the
first occurrence of the marker suffix in the name is terminal, the name is
stripped and the entry classified by UTF-8 decodability (text goes to the
tera registry, undecodable bytes to the binary map, both under the stripped
name); every other name is kept whole and stored in the binary map. -/
def addRawTemplate (t : Templater) (name : List Char) (content : Bytes) : Templater :=
  match splitOnce teraPat name with
  | some (pre, []) =>
    match utf8Dec content with
    | some file => { t with tera := upsert pre file t.tera }
    | none => { t with binaries := upsert pre content t.binaries }
  | _ => { t with binaries := upsert name content t.binaries }

/-- Templater::get_template_names from templater.rs lines 98 to 102: tera
registry names chained with binary map names. -/
def getTemplateNames (t : Templater) : List (List Char) :=
  t.tera.map Prod.fst ++ t.binaries.map Prod.fst

/-- Templater::render_to from templater.rs lines 104 to 119: a name found in
the binary map is copied verbatim; otherwise the tera engine renders it
against the context. -/
def renderTo (tr : TeraRender) (t : Templater) (name : List Char) (ctx : Ctx) :
    Option Bytes :=
  match lookupA name t.binaries with
  | some data => some data
  | none => tr t.tera name ctx

/-- The key under which add_raw_template stores a given name: stripped when
the first marker occurrence is terminal, kept whole otherwise. -/
def markerName (n : List Char) : List Char :=
  match splitOnce teraPat n with
  | some (p, []) => p
  | _ => n

/-- A zip archive entry: its full name inside the archive, whether it is a
file entry, and its decompressed bytes. -/
structure ZipEntry where
  name : List Char
  isFile : Bool
  data : Bytes
  deriving DecidableEq

/-- Split a character list on a separator, keeping empty segments. -/
def splitChar (sep : Char) : List Char → List (List Char)
  | [] => [[]]
  | c :: rest =>
    if c = sep then [] :: splitChar sep rest
    else
      match splitChar sep rest with
      | seg :: more => (c :: seg) :: more
      | [] => [[c]]

/-- Path components: slash-separated segments with empty and
current-directory segments removed, as Rust Path::components yields for
relative paths; parent segments are kept. -/
def pathComps (name : List Char) : List (List Char) :=
  (splitChar '/' name).filter (fun c => decide (c ≠ [] ∧ c ≠ ['.']))

/-- Depth check of the zip crate ZipFile::enclosed_name: parent segments may
not take the resolved depth below the archive root. -/
def depthOk : Nat → List (List Char) → Bool
  | _, [] => true
  | d, c :: rest =>
    if c = ['.', '.'] then
      match d with
      | 0 => false
      | d2 + 1 => depthOk d2 rest
    else depthOk (d + 1) rest

/-- Modelled from the zip dependency: ZipFile::enclosed_name accepts a name
only when it has no NUL character, is not absolute and never escapes the
archive root through parent segments. -/
def enclosedOk (name : List Char) : Bool :=
  !(name.contains (Char.ofNat 0)) &&
    (match name with
      | c :: _ => decide (c ≠ '/')
      | [] => true) &&
    depthOk 0 (pathComps name)

/-- Join path components with slashes. -/
def joinSlash : List (List Char) → List Char
  | [] => []
  | [c] => c
  | c :: rest => c ++ '/' :: joinSlash rest

/-- The name under which from_zip stores a zip entry: the enclosed-name
safety check followed by stripping the first path component of the entry
name, from templater.rs lines 35 to 40; none makes the whole load fail. -/
def zipStoredName (name : List Char) : Option (List Char) :=
  if enclosedOk name then
    match pathComps name with
    | [] => none
    | _ :: rest => some (joinSlash rest)
  else none

/-- Loop body of Templater::from_zip, templater.rs lines 30 to 44: directory
entries are skipped; a file entry whose bytes fail UTF-8 decoding is skipped
(read_to_string fails and the entry is dropped); otherwise an unsafe or
empty name fails the whole load and a safe name is added through
add_raw_template. The bytes of the decoded string equal the original entry
bytes, so the original bytes are passed on. -/
def fromZipGo (t : Templater) : List ZipEntry → Option Templater
  | [] => some t
  | e :: rest =>
    if e.isFile then
      match utf8Dec e.data with
      | none => fromZipGo t rest
      | some _ =>
        match zipStoredName e.name with
        | none => none
        | some n => fromZipGo (addRawTemplate t n e.data) rest
    else fromZipGo t rest

/-- Templater::from_zip from templater.rs lines 28 to 46. -/
def fromZip (entries : List ZipEntry) : Option Templater :=
  fromZipGo Templater.default entries

/-- Templater::from_git from templater.rs lines 48 to 67: every blob of the
head tree, with its repo-relative path, is added through add_raw_template
(the tree walk is modelled as the list of blob paths and contents). -/
def fromGitGo (t : Templater) : List (List Char × Bytes) → Templater
  | [] => t
  | (n, d) :: rest => fromGitGo (addRawTemplate t n d) rest

/-- Templater::from_git over a list of blob entries. -/
def fromGit (files : List (List Char × Bytes)) : Templater :=
  fromGitGo Templater.default files

/-- Loop of default_template_tera, lib.rs lines 140 to 151: embedded files
whose bytes decode as UTF-8 are added through add_raw_template; all other
files are dropped. -/
def defaultTemplateGo (t : Templater) : List (List Char × Bytes) → Templater
  | [] => t
  | (n, d) :: rest =>
    match utf8Dec d with
    | some _ => defaultTemplateGo (addRawTemplate t n d) rest
    | none => defaultTemplateGo t rest

/-- default_template_tera from lib.rs lines 140 to 151. -/
def defaultTemplateTera (files : List (List Char × Bytes)) : Templater :=
  defaultTemplateGo Templater.default files

/-- continuous_integration_tera from lib.rs lines 177 to 188: a plain tera
registry (no marker-suffix handling) built from the embedded CI assets that
decode as UTF-8; other assets are dropped. -/
def continuousIntegrationTera : List (List Char × Bytes) → TeraMap
  | [] => []
  | (n, d) :: rest =>
    match utf8Dec d with
    | some s => upsert n s (continuousIntegrationTera rest)
    | none => continuousIntegrationTera rest

/-- License from lib.rs lines 63 to 72. -/
inductive License
  | other
  | cc0
  | apacheV2
  | mit
  | gplV2
  | gplV3
  | noLicense
  deriving DecidableEq

/-- License::to_string from lib.rs lines 74 to 83. -/
def License.toString : License → List Char
  | .apacheV2 => "Apache-2.0".data
  | .mit => "MIT".data
  | .cc0 => "CC0-1.0".data
  | _ => "Other".data

/-- License resolution from lib.rs lines 242 to 248: an empty explicit list
defaults to Apache-2.0 and MIT; a list containing the NoLicense sentinel
resolves to the empty set; otherwise the explicit list wins. List
membership models Vec::contains. -/
def resolveLicense (explicit : List License) : List License :=
  if explicit.isEmpty then [License.apacheV2, License.mit]
  else if License.noLicense ∈ explicit then []
  else explicit

/-- Join a list of strings with a separator, modelling slice::join. -/
def joinSep (sep : List Char) : List (List Char) → List Char
  | [] => []
  | [x] => x
  | x :: rest => x ++ sep ++ joinSep sep rest

/-- The value inserted for the license context variable, lib.rs lines 249 to
256: the resolved license identifiers joined with the OR separator. -/
def licenseVar (explicit : List License) : List Char :=
  joinSep " OR ".data ((resolveLicense explicit).map License.toString)

/-- ContinuousIntegration from lib.rs lines 85 to 89. -/
inductive ContinuousIntegration
  | github
  | none
  deriving DecidableEq

/-- ContinuousIntegration::paths from lib.rs lines 91 to 98: the source-tree
name space and the output directory of a provider. -/
def ciPaths : ContinuousIntegration → List Char × List Char
  | .github => ("github".data, ".github".data)
  | .none => ([], [])

/-- CI resolution from lib.rs lines 257 to 266: defaults to the Github
provider; a list containing the None sentinel resolves to the empty set;
otherwise the explicit list wins. -/
def resolveCI (explicit : List ContinuousIntegration) : List ContinuousIntegration :=
  if explicit.isEmpty then [ContinuousIntegration.github]
  else if ContinuousIntegration.none ∈ explicit then []
  else explicit

/-- VersionControlSystem from lib.rs lines 100 to 104. -/
inductive VersionControlSystem
  | git
  | none
  deriving DecidableEq

/-- ProjectOpts from lib.rs lines 106 to 119. -/
structure ProjectOpts where
  name : Option (List Char)
  license : List License
  continuousIntegration : List ContinuousIntegration
  template : Option (List Char)
  vcs : Option VersionControlSystem

/-- The filesystem below the target directory: an association list from
relative output path to file bytes. -/
abbrev FS := List (List Char × Bytes)

/-- Create or overwrite a file. -/
def fsWrite (p : List Char) (content : Bytes) (fs : FS) : FS :=
  upsert p content fs

/-- The environment init_project runs against: the observed target
directory, the templates directory and the embedded asset bundles. -/
structure Env where
  targetDirContents : Option (List (List Char))
  targetBaseName : Option (List Char)
  repoAt : List Char → Bool
  zipAt : List Char → Option (List ZipEntry)
  repoFiles : List Char → List (List Char × Bytes)
  defaultTemplateFiles : List (List Char × Bytes)
  ciFiles : List (List Char × Bytes)
  licenseAssets : List Char → Option Bytes

/-- Error conditions surfaced by init_project. -/
inductive InitErr
  | fsErr
  | dirNotEmpty
  | invalidName
  | noTemplate
  | badZip
  | renderErr
  | unknownLicense
  deriving DecidableEq

/-- The three template sources of the specification. -/
inductive TemplateSource
  | embedded
  | archive (entries : List ZipEntry)
  | repository (tname : List Char)

/-- Template source probing from lib.rs lines 272 to 286: an explicit name
is first tried as a repository in the templates directory, then as a zip
archive named after it there (failure to open it is an error); with no
explicit name the embedded default is used. -/
def selectTemplateSource (env : Env) (tmpl : Option (List Char)) :
    Except InitErr TemplateSource :=
  match tmpl with
  | some t =>
    if env.repoAt t then Except.ok (TemplateSource.repository t)
    else
      match env.zipAt t with
      | some es => Except.ok (TemplateSource.archive es)
      | none => Except.error InitErr.noTemplate
  | none => Except.ok TemplateSource.embedded

/-- Loading of the selected source, lib.rs lines 272 to 286. -/
def loadTemplate (env : Env) : TemplateSource → Except InitErr Templater
  | .repository t => Except.ok (fromGit (env.repoFiles t))
  | .archive es =>
    match fromZip es with
    | some t => Except.ok t
    | none => Except.error InitErr.badZip
  | .embedded => Except.ok (defaultTemplateTera env.defaultTemplateFiles)

/-- Template file emission, lib.rs lines 288 to 297: every store name is
rendered into a freshly created file at that relative path; File::create
truncates first, so a failing render leaves an empty file and aborts. -/
def writeFilesGo (tr : TeraRender) (t : Templater) (ctx : Ctx) (fs : FS) :
    List (List Char) → FS × Option InitErr
  | [] => (fs, Option.none)
  | n :: rest =>
    match renderTo tr t n ctx with
    | some out => writeFilesGo tr t ctx (fsWrite n out fs) rest
    | none => (fsWrite n [] fs, some InitErr.renderErr)

/-- License file emission, lib.rs lines 299 to 305: each resolved license
writes its embedded text to LICENSE- followed by the identifier; a missing
asset is fatal. -/
def writeLicensesGo (env : Env) (fs : FS) : List License → FS × Option InitErr
  | [] => (fs, Option.none)
  | l :: rest =>
    match env.licenseAssets l.toString with
    | some text => writeLicensesGo env (fsWrite ("LICENSE-".data ++ l.toString) text fs) rest
    | none => (fs, some InitErr.unknownLicense)

/-- The re-rooted output path of one CI template entry for one provider,
lib.rs lines 312 to 314: when the entry name starts with the provider
source name space, that component-wise marker is stripped and the remainder
joined below the provider output directory; otherwise the entry does not
apply. -/
def ciOutName (pre outDir n : List Char) : Option (List Char) :=
  if (pathComps pre).isPrefixOf (pathComps n) then
    some (joinSlash (pathComps outDir ++ (pathComps n).drop (pathComps pre).length))
  else Option.none

/-- CI emission for one provider, lib.rs lines 311 to 324: each applicable
entry is written only when no file exists at the output path
(OpenOptions::create_new); an existing file is skipped silently; a failing
render of a freshly created file leaves it empty and aborts. -/
def writeCIOne (tr : TeraRender) (ciT : TeraMap) (ctx : Ctx) (pre outDir : List Char)
    (fs : FS) : List (List Char) → FS × Option InitErr
  | [] => (fs, Option.none)
  | n :: rest =>
    match ciOutName pre outDir n with
    | some out =>
      if (lookupA out fs).isSome then writeCIOne tr ciT ctx pre outDir fs rest
      else
        match tr ciT n ctx with
        | some bytes => writeCIOne tr ciT ctx pre outDir (fsWrite out bytes fs) rest
        | none => (fsWrite out [] fs, some InitErr.renderErr)
    | none => writeCIOne tr ciT ctx pre outDir fs rest

/-- CI emission over all resolved providers, lib.rs lines 308 to 325. -/
def writeCIAll (tr : TeraRender) (ciT : TeraMap) (ctx : Ctx) (fs : FS) :
    List ContinuousIntegration → FS × Option InitErr
  | [] => (fs, Option.none)
  | ci :: rest =>
    match writeCIOne tr ciT ctx (ciPaths ci).1 (ciPaths ci).2 fs (ciT.map Prod.fst) with
    | (fs2, Option.none) => writeCIAll tr ciT ctx fs2 rest
    | (fs2, some e) => (fs2, some e)

/-- The re-rooted output paths of all applicable CI entries of the given
providers. -/
def ciAllOutNames (ciT : TeraMap) (cis : List ContinuousIntegration) : List (List Char) :=
  cis.flatMap (fun ci => (ciT.map Prod.fst).filterMap (ciOutName (ciPaths ci).1 (ciPaths ci).2))

/-- init_project from lib.rs lines 225 to 336, as a function from the
observed environment and options to the final filesystem below the target,
whether version control was initialized, and the error if any. Stages in
source order: emptiness precondition, name and context resolution, license,
CI and vcs resolution, template source probing and loading, template file
emission, license emission, CI emission, version control initialization. -/
def initProject (env : Env) (tr : TeraRender) (opts : ProjectOpts) (fs : FS) :
    FS × Bool × Option InitErr :=
  match env.targetDirContents with
  | Option.none => (fs, false, some InitErr.fsErr)
  | some entries =>
    if entries.length ≠ 0 then (fs, false, some InitErr.dirNotEmpty)
    else
      match (match opts.name with
              | some n => some n
              | Option.none => env.targetBaseName) with
      | Option.none => (fs, false, some InitErr.invalidName)
      | some pname =>
        let ctx : Ctx := [("name".data, pname), ("license".data, licenseVar opts.license)]
        let license := resolveLicense opts.license
        let cis := resolveCI opts.continuousIntegration
        let vcs := match opts.vcs with
          | some v => v
          | Option.none => VersionControlSystem.git
        match selectTemplateSource env opts.template with
        | Except.error e => (fs, false, some e)
        | Except.ok src =>
          match loadTemplate env src with
          | Except.error e => (fs, false, some e)
          | Except.ok tpl =>
            match writeFilesGo tr tpl ctx fs (getTemplateNames tpl) with
            | (fs1, some e) => (fs1, false, some e)
            | (fs1, Option.none) =>
              match writeLicensesGo env fs1 license with
              | (fs2, some e) => (fs2, false, some e)
              | (fs2, Option.none) =>
                let ciT := continuousIntegrationTera env.ciFiles
                match writeCIAll tr ciT ctx fs2 cis with
                | (fs3, some e) => (fs3, false, some e)
                | (fs3, Option.none) =>
                  (fs3, (match vcs with
                          | VersionControlSystem.git => true
                          | VersionControlSystem.none => false), Option.none)

theorem upsert_nil {α : Type} (k : List Char) (v : α) : upsert k v [] = [(k, v)] := rfl

theorem upsert_cons {α : Type} (k k2 : List Char) (v v2 : α) (rest : List (List Char × α)) :
    upsert k v ((k2, v2) :: rest)
      = if k2 = k then (k, v) :: rest else (k2, v2) :: upsert k v rest := rfl

theorem lookupA_nil {α : Type} (k : List Char) : lookupA (α := α) k [] = none := rfl

theorem lookupA_cons {α : Type} (k k2 : List Char) (v : α) (rest : List (List Char × α)) :
    lookupA k ((k2, v) :: rest) = if k2 = k then some v else lookupA k rest := rfl

theorem lookupA_upsert_self {α : Type} (k : List Char) (v : α) (m : List (List Char × α)) :
    lookupA k (upsert k v m) = some v := by
  induction m with
  | nil => rw [upsert_nil, lookupA_cons, if_pos rfl]
  | cons p rest ih =>
    obtain ⟨k2, v2⟩ := p
    by_cases h : k2 = k
    · subst h; rw [upsert_cons, if_pos rfl, lookupA_cons, if_pos rfl]
    · rw [upsert_cons, if_neg h, lookupA_cons, if_neg h, ih]

theorem lookupA_upsert_ne {α : Type} (k k2 : List Char) (v : α) (m : List (List Char × α))
    (h : k2 ≠ k) : lookupA k (upsert k2 v m) = lookupA k m := by
  induction m with
  | nil => rw [upsert_nil, lookupA_cons, if_neg h, lookupA_nil]
  | cons p rest ih =>
    obtain ⟨k3, v3⟩ := p
    by_cases h2 : k3 = k2
    · subst h2
      rw [upsert_cons, if_pos rfl, lookupA_cons, if_neg h, lookupA_cons, if_neg]
      intro h3; exact h (h3 ▸ rfl)
    · rw [upsert_cons, if_neg h2, lookupA_cons, lookupA_cons, ih]

set_option maxHeartbeats 1000000 in
theorem keys_upsert_toFinset {α : Type} (k : List Char) (v : α) (m : List (List Char × α)) :
    ((upsert k v m).map Prod.fst).toFinset = insert k (m.map Prod.fst).toFinset := by
  induction m with
  | nil => rw [upsert_nil]; simp
  | cons p rest ih =>
    obtain ⟨k2, v2⟩ := p
    by_cases h : k2 = k
    · subst h
      rw [upsert_cons, if_pos rfl]
      simp only [List.map_cons, List.toFinset_cons, Finset.insert_idem]
    · rw [upsert_cons, if_neg h]
      simp only [List.map_cons, List.toFinset_cons, ih]
      rw [Finset.Insert.comm]

theorem names_addRaw (t : Templater) (n : List Char) (c : Bytes) :
    (getTemplateNames (addRawTemplate t n c)).toFinset
      = insert (markerName n) (getTemplateNames t).toFinset := by
  unfold addRawTemplate markerName getTemplateNames
  rcases hs : splitOnce teraPat n with _ | ⟨pre, q⟩
  · simp [List.toFinset_append, keys_upsert_toFinset, Finset.union_insert]
  · cases q with
    | nil =>
      cases hu : utf8Dec c with
      | some file => simp [hu, List.toFinset_append, keys_upsert_toFinset, Finset.insert_union]
      | none => simp [hu, List.toFinset_append, keys_upsert_toFinset, Finset.union_insert]
    | cons c2 cs => simp [List.toFinset_append, keys_upsert_toFinset, Finset.union_insert]

theorem mem_names_addRaw (t : Templater) (n : List Char) (c : Bytes) (k : List Char)
    (h : k ∈ getTemplateNames t) : k ∈ getTemplateNames (addRawTemplate t n c) := by
  rw [← List.mem_toFinset] at h ⊢
  rw [names_addRaw]
  exact Finset.mem_insert_of_mem h

theorem self_mem_names_addRaw (t : Templater) (n : List Char) (c : Bytes) :
    markerName n ∈ getTemplateNames (addRawTemplate t n c) := by
  rw [← List.mem_toFinset, names_addRaw]
  exact Finset.mem_insert_self _ _

theorem fromZipGo_filter (entries : List ZipEntry) :
    ∀ t : Templater,
      fromZipGo t entries
        = fromZipGo t (entries.filter (fun e => e.isFile && (utf8Dec e.data).isSome)) := by
  induction entries with
  | nil => intro t; rfl
  | cons e rest ih =>
    intro t
    by_cases hf : e.isFile
    · cases hu : utf8Dec e.data with
      | none => simp [fromZipGo, List.filter_cons, hf, hu, ih]
      | some s =>
        cases hn : zipStoredName e.name with
        | none => simp [fromZipGo, List.filter_cons, hf, hu, hn]
        | some sn => simp [fromZipGo, List.filter_cons, hf, hu, hn, ih]
    · simp [fromZipGo, List.filter_cons, hf, ih]

theorem fromZipGo_names (entries : List ZipEntry) :
    ∀ t : Templater,
      (∀ e ∈ entries, e.isFile = true →
          (utf8Dec e.data).isSome ∧ (zipStoredName e.name).isSome) →
      ∃ t2, fromZipGo t entries = some t2 ∧
        (getTemplateNames t2).toFinset =
          (getTemplateNames t).toFinset ∪
            ((entries.filter (fun e => e.isFile)).filterMap
              (fun e => (zipStoredName e.name).map markerName)).toFinset := by
  induction entries with
  | nil =>
    intro t _
    exact ⟨t, rfl, by simp [fromZipGo]⟩
  | cons e rest ih =>
    intro t h
    by_cases hf : e.isFile
    · obtain ⟨hu, hn⟩ := h e (by simp) hf
      obtain ⟨s, hs⟩ := Option.isSome_iff_exists.mp hu
      obtain ⟨sn, hsn⟩ := Option.isSome_iff_exists.mp hn
      obtain ⟨t2, hgo, hnames⟩ :=
        ih (addRawTemplate t sn e.data) (fun e2 he2 => h e2 (by simp [he2]))
      refine ⟨t2, ?_, ?_⟩
      · simp [fromZipGo, hf, hs, hsn, hgo]
      · rw [hnames, names_addRaw]
        simp only [List.filter_cons, hf, if_true, List.filterMap_cons, hsn]
        simp only [Option.map_some', List.toFinset_cons]
        rw [Finset.insert_union, Finset.union_insert]
    · obtain ⟨t2, hgo, hnames⟩ := ih t (fun e2 he2 => h e2 (by simp [he2]))
      refine ⟨t2, ?_, ?_⟩
      · simpa [fromZipGo, hf] using hgo
      · rw [hnames]
        simp [List.filter_cons, hf]

theorem fromZipGo_unsafe (entries : List ZipEntry) :
    ∀ t : Templater, ∀ e ∈ entries, e.isFile = true → (utf8Dec e.data).isSome →
      zipStoredName e.name = none → fromZipGo t entries = none := by
  induction entries with
  | nil => intro t e he; simp at he
  | cons e2 rest ih =>
    intro t e he hf hu hn
    rcases List.mem_cons.mp he with he1 | he2
    · subst he1
      obtain ⟨s, hs⟩ := Option.isSome_iff_exists.mp hu
      simp [fromZipGo, hf, hs, hn]
    · by_cases hf2 : e2.isFile
      · cases hu2 : utf8Dec e2.data with
        | none => simpa [fromZipGo, hf2, hu2] using ih t e he2 hf hu hn
        | some s2 =>
          cases hn2 : zipStoredName e2.name with
          | none => simp [fromZipGo, hf2, hu2, hn2]
          | some sn2 =>
            simpa [fromZipGo, hf2, hu2, hn2] using
              ih (addRawTemplate t sn2 e2.data) e he2 hf hu hn
      · simpa [fromZipGo, hf2] using ih t e he2 hf hu hn

theorem names_mono_fromZipGo (entries : List ZipEntry) :
    ∀ t t2 : Templater, fromZipGo t entries = some t2 →
      ∀ k, k ∈ getTemplateNames t → k ∈ getTemplateNames t2 := by
  induction entries with
  | nil =>
    intro t t2 hgo k hk
    simp [fromZipGo] at hgo
    exact hgo ▸ hk
  | cons e rest ih =>
    intro t t2 hgo k hk
    by_cases hf : e.isFile
    · cases hu : utf8Dec e.data with
      | none =>
        exact ih t t2 (by simpa [fromZipGo, hf, hu] using hgo) k hk
      | some s =>
        cases hn : zipStoredName e.name with
        | none => simp [fromZipGo, hf, hu, hn] at hgo
        | some sn =>
          exact ih (addRawTemplate t sn e.data) t2
            (by simpa [fromZipGo, hf, hu, hn] using hgo) k
            (mem_names_addRaw t sn e.data k hk)
    · exact ih t t2 (by simpa [fromZipGo, hf] using hgo) k hk

theorem fromZipGo_inserts (entries : List ZipEntry) :
    ∀ t t2 : Templater, fromZipGo t entries = some t2 →
      ∀ e ∈ entries, e.isFile = true → (utf8Dec e.data).isSome →
        ∀ sn, zipStoredName e.name = some sn → markerName sn ∈ getTemplateNames t2 := by
  induction entries with
  | nil => intro t t2 _ e he; simp at he
  | cons e2 rest ih =>
    intro t t2 hgo e he hf hu sn hsn
    rcases List.mem_cons.mp he with he1 | he2
    · subst he1
      obtain ⟨s, hs⟩ := Option.isSome_iff_exists.mp hu
      have hgo2 : fromZipGo (addRawTemplate t sn e.data) rest = some t2 := by
        simpa [fromZipGo, hf, hs, hsn] using hgo
      exact names_mono_fromZipGo rest _ t2 hgo2 (markerName sn)
        (self_mem_names_addRaw t sn e.data)
    · by_cases hf2 : e2.isFile
      · cases hu2 : utf8Dec e2.data with
        | none =>
          exact ih t t2 (by simpa [fromZipGo, hf2, hu2] using hgo) e he2 hf hu sn hsn
        | some s2 =>
          cases hn2 : zipStoredName e2.name with
          | none => simp [fromZipGo, hf2, hu2, hn2] at hgo
          | some sn2 =>
            exact ih (addRawTemplate t sn2 e2.data) t2
              (by simpa [fromZipGo, hf2, hu2, hn2] using hgo) e he2 hf hu sn hsn
      · exact ih t t2 (by simpa [fromZipGo, hf2] using hgo) e he2 hf hu sn hsn

theorem writeCIOne_preserve (tr : TeraRender) (ciT : TeraMap) (ctx : Ctx)
    (pre outDir : List Char) (ns : List (List Char)) :
    ∀ (fs : FS) (p : List Char) (c : Bytes), lookupA p fs = some c →
      lookupA p (writeCIOne tr ciT ctx pre outDir fs ns).1 = some c := by
  induction ns with
  | nil => intro fs p c h; simpa [writeCIOne] using h
  | cons n rest ih =>
    intro fs p c h
    cases hon : ciOutName pre outDir n with
    | none => simpa [writeCIOne, hon] using ih fs p c h
    | some out =>
      by_cases hex : (lookupA out fs).isSome
      · simpa [writeCIOne, hon, hex] using ih fs p c h
      · have hne : out ≠ p := by
          intro he; subst he; rw [h] at hex; simp at hex
        cases hr : tr ciT n ctx with
        | some bytes =>
          have h2 : lookupA p (fsWrite out bytes fs) = some c := by
            unfold fsWrite; rw [lookupA_upsert_ne _ _ _ _ hne]; exact h
          simpa [writeCIOne, hon, hex, hr] using ih (fsWrite out bytes fs) p c h2
        | none =>
          have h2 : lookupA p (fsWrite out [] fs) = some c := by
            unfold fsWrite; rw [lookupA_upsert_ne _ _ _ _ hne]; exact h
          simpa [writeCIOne, hon, hex, hr] using h2

theorem writeCIOne_skip_all (tr : TeraRender) (ciT : TeraMap) (ctx : Ctx)
    (pre outDir : List Char) (ns : List (List Char)) :
    ∀ fs : FS, (∀ q ∈ ns.filterMap (ciOutName pre outDir), (lookupA q fs).isSome) →
      writeCIOne tr ciT ctx pre outDir fs ns = (fs, Option.none) := by
  induction ns with
  | nil => intro fs _; rfl
  | cons n rest ih =>
    intro fs h
    cases hon : ciOutName pre outDir n with
    | none =>
      have h2 := ih fs (fun q hq => h q (by simp [List.filterMap_cons, hon, hq]))
      simpa [writeCIOne, hon] using h2
    | some out =>
      have hex : (lookupA out fs).isSome :=
        h out (by simp [List.filterMap_cons, hon])
      have h2 := ih fs (fun q hq => h q (by
        simp only [List.filterMap_cons, hon, List.mem_cons]
        exact Or.inr hq))
      simpa [writeCIOne, hon, hex] using h2

theorem writeCIAll_preserve (tr : TeraRender) (ciT : TeraMap) (ctx : Ctx)
    (cis : List ContinuousIntegration) :
    ∀ (fs : FS) (p : List Char) (c : Bytes), lookupA p fs = some c →
      lookupA p (writeCIAll tr ciT ctx fs cis).1 = some c := by
  induction cis with
  | nil => intro fs p c h; simpa [writeCIAll] using h
  | cons ci rest ih =>
    intro fs p c h
    rcases hw : writeCIOne tr ciT ctx (ciPaths ci).1 (ciPaths ci).2 fs (ciT.map Prod.fst)
      with ⟨fs2, err⟩
    have hp : lookupA p fs2 = some c := by
      have h3 := writeCIOne_preserve tr ciT ctx (ciPaths ci).1 (ciPaths ci).2
        (ciT.map Prod.fst) fs p c h
      rwa [hw] at h3
    cases err with
    | none => simpa [writeCIAll, hw] using ih fs2 p c hp
    | some e => simpa [writeCIAll, hw] using hp

theorem writeCIAll_skip_all (tr : TeraRender) (ciT : TeraMap) (ctx : Ctx)
    (cis : List ContinuousIntegration) :
    ∀ fs : FS, (∀ q ∈ ciAllOutNames ciT cis, (lookupA q fs).isSome) →
      writeCIAll tr ciT ctx fs cis = (fs, Option.none) := by
  induction cis with
  | nil => intro fs _; rfl
  | cons ci rest ih =>
    intro fs h
    have h1 : writeCIOne tr ciT ctx (ciPaths ci).1 (ciPaths ci).2 fs (ciT.map Prod.fst)
        = (fs, Option.none) :=
      writeCIOne_skip_all tr ciT ctx (ciPaths ci).1 (ciPaths ci).2 (ciT.map Prod.fst) fs
        (fun q hq => h q (by
          simp only [ciAllOutNames, List.flatMap_cons, List.mem_append]
          exact Or.inl hq))
    have h2 := ih fs (fun q hq => h q (by
      simp only [ciAllOutNames, List.flatMap_cons, List.mem_append] at hq ⊢
      exact Or.inr (by simpa [ciAllOutNames] using hq)))
    simp [writeCIAll, h1, h2]

theorem upsert_upsert_self {α : Type} (k : List Char) (v1 v2 : α)
    (m : List (List Char × α)) : upsert k v2 (upsert k v1 m) = upsert k v2 m := by
  induction m with
  | nil => rw [upsert_nil, upsert_cons, if_pos rfl, upsert_nil]
  | cons p rest ih =>
    obtain ⟨k2, w⟩ := p
    by_cases h : k2 = k
    · subst h
      rw [upsert_cons, if_pos rfl, upsert_cons, if_pos rfl, upsert_cons, if_pos rfl]
    · rw [upsert_cons, if_neg h, upsert_cons, if_neg h, upsert_cons, if_neg h, ih]

/-- A renderer stub used for concrete witness inputs. -/
def trW : TeraRender := fun _ _ _ => Option.none

/-- A concrete environment whose target directory holds one entry. -/
def envW : Env :=
  ⟨some ["existing.txt".data], some "proj".data, fun _ => false, fun _ => Option.none,
   fun _ => [], [], [], fun _ => Option.none⟩

/-- Concrete project options with every field defaulted. -/
def optsW : ProjectOpts := ⟨Option.none, [], [], Option.none, Option.none⟩

/-- The archive of the end-to-end scenario: a wrapper directory holding
Cargo.toml, src/main.rs.tera and a literal src/keep.tera.tera. -/
def zipC1 : List ZipEntry :=
  [⟨"tmpl/Cargo.toml".data, true, strBytes "a"⟩,
   ⟨"tmpl/src/main.rs.tera".data, true, strBytes "b"⟩,
   ⟨"tmpl/src/keep.tera.tera".data, true, strBytes "c"⟩]

/-- C1: for the scenario archive, the store names (which become the written
output paths 1:1) are Cargo.toml, src/main.rs and src/keep.tera.tera: the
doubled marker suffix is NOT escaped to a single literal suffix, the claimed
output path src/keep.tera does not exist, the doubled name is kept in the
binary map with its content verbatim, and Cargo.toml is classified binary
(copied verbatim) as well. -/
theorem zip_doubled_marker_kept_verbatim :
    (fromZip zipC1).map getTemplateNames
        = some ["src/main.rs".data, "Cargo.toml".data, "src/keep.tera.tera".data]
      ∧ (fromZip zipC1).map (fun t => decide ("src/keep.tera".data ∈ getTemplateNames t))
        = some false
      ∧ (fromZip zipC1).map (fun t => lookupA "src/keep.tera.tera".data t.binaries)
        = some (some (strBytes "c"))
      ∧ (fromZip zipC1).map (fun t => lookupA "Cargo.toml".data t.binaries)
        = some (some (strBytes "a")) :=
  ⟨by decide, by decide, by decide, by decide⟩

/-- An archive holding a single file entry whose bytes are not UTF-8. -/
def zipNonUtf8 : List ZipEntry := [⟨"t/data.bin".data, true, [0xFF]⟩]

/-- C2 counterexample: the archive loader drops a file entry whose bytes do
not decode as UTF-8; the resulting store is empty instead of holding a
Binary entry. -/
theorem archive_drops_non_utf8_entry :
    fromZip zipNonUtf8 = some Templater.default
      ∧ (fromZip zipNonUtf8).map getTemplateNames = some [] :=
  ⟨by decide, by decide⟩

/-- C2 amended: the archive loader behaves exactly as if non-file entries
and entries whose bytes fail UTF-8 decoding were removed up front (dropped,
never inserted), and every UTF-8 file entry with a safe name is inserted
under its stored name. -/
theorem from_zip_utf8_only (entries : List ZipEntry) :
    fromZip entries
        = fromZip (entries.filter (fun e => e.isFile && (utf8Dec e.data).isSome))
      ∧ (∀ t2 : Templater, fromZip entries = some t2 →
          ∀ e ∈ entries, e.isFile = true → (utf8Dec e.data).isSome →
            ∀ sn, zipStoredName e.name = some sn →
              markerName sn ∈ getTemplateNames t2) := by
  constructor
  · exact fromZipGo_filter entries Templater.default
  · intro t2 h e he hf hu sn hsn
    exact fromZipGo_inserts entries Templater.default t2 h e he hf hu sn hsn

/-- An archive mixing a non-UTF-8 entry and a plain text entry. -/
def zipMixed : List ZipEntry :=
  [⟨"t/b.bin".data, true, [0xFF]⟩, ⟨"t/ok.txt".data, true, strBytes "y"⟩]

/-- Witness for the amended C2 theorem at a concrete archive. -/
theorem from_zip_utf8_only_witness :
    markerName "ok.txt".data ∈ getTemplateNames ⟨[], [("ok.txt".data, strBytes "y")]⟩ :=
  (from_zip_utf8_only zipMixed).2 ⟨[], [("ok.txt".data, strBytes "y")]⟩ (by decide)
    ⟨"t/ok.txt".data, true, strBytes "y"⟩ (by decide) (by decide) (by decide)
    "ok.txt".data (by decide)

/-- C3: whenever the target directory exists and holds at least one entry,
init_project fails with the directory-not-empty condition, the filesystem is
returned unchanged (no template file, no license file, no CI file written)
and version control is not initialized. -/
theorem init_nonempty_dir_fails_without_writes (env : Env) (tr : TeraRender)
    (opts : ProjectOpts) (fs : FS) (es : List (List Char))
    (h1 : env.targetDirContents = some es) (h2 : es ≠ []) :
    initProject env tr opts fs = (fs, false, some InitErr.dirNotEmpty) := by
  have h3 : es.length ≠ 0 := by simpa [List.length_eq_zero] using h2
  unfold initProject
  rw [h1]
  simp [h3]

/-- Witness for C3 at a concrete nonempty target directory. -/
theorem init_nonempty_dir_witness :
    initProject envW trW optsW [] = ([], false, some InitErr.dirNotEmpty) :=
  init_nonempty_dir_fails_without_writes envW trW optsW [] ["existing.txt".data]
    rfl (by decide)

/-- C7: rendering a name held in the binary map writes exactly the stored
bytes, for every renderer and every context. -/
theorem render_binary_identity (tr : TeraRender) (t : Templater) (name : List Char)
    (data : Bytes) (ctx : Ctx) (h : lookupA name t.binaries = some data) :
    renderTo tr t name ctx = some data := by
  unfold renderTo
  rw [h]

/-- Witness for C7 at a concrete binary entry. -/
theorem render_binary_identity_witness :
    renderTo trW ⟨[], [("img.png".data, [0, 255])]⟩ "img.png".data [] = some [0, 255] :=
  render_binary_identity trW ⟨[], [("img.png".data, [0, 255])]⟩ "img.png".data
    [0, 255] [] (by decide)

/-- C9: template source probing order: an explicit name that opens as a
repository in the templates directory selects the repository loader; failing
that, a zip archive named after it there selects the archive loader; with no
explicit name the embedded default is selected. -/
theorem template_source_probing_order (env : Env) (tname : List Char) :
    (env.repoAt tname = true →
        selectTemplateSource env (some tname)
          = Except.ok (TemplateSource.repository tname))
    ∧ (env.repoAt tname = false → ∀ es, env.zipAt tname = some es →
        selectTemplateSource env (some tname) = Except.ok (TemplateSource.archive es))
    ∧ selectTemplateSource env Option.none = Except.ok TemplateSource.embedded := by
  refine ⟨fun h => ?_, fun h es hz => ?_, rfl⟩
  · simp [selectTemplateSource, h]
  · simp [selectTemplateSource, h, hz]

/-- An archive with one safe plain entry. -/
def zipSafe : List ZipEntry := [⟨"t/a".data, true, strBytes "x"⟩]

/-- An environment where every template name opens as a repository. -/
def envRepo : Env :=
  ⟨some [], some "p".data, fun _ => true, fun _ => Option.none, fun _ => [], [], [],
   fun _ => Option.none⟩

/-- An environment with no repositories and one zip archive. -/
def envZip : Env :=
  ⟨some [], some "p".data, fun _ => false, fun _ => some zipSafe, fun _ => [], [], [],
   fun _ => Option.none⟩

/-- Witness for C9 at concrete environments. -/
theorem template_source_probing_witness :
    selectTemplateSource envRepo (some "t".data)
        = Except.ok (TemplateSource.repository "t".data)
      ∧ selectTemplateSource envZip (some "t".data)
        = Except.ok (TemplateSource.archive zipSafe)
      ∧ selectTemplateSource envRepo Option.none = Except.ok TemplateSource.embedded :=
  ⟨(template_source_probing_order envRepo "t".data).1 rfl,
   (template_source_probing_order envZip "t".data).2.1 rfl zipSafe rfl,
   (template_source_probing_order envRepo "t".data).2.2⟩

/-- C10: an entry added under a name in which the marker suffix never occurs
is stored in the binary map under the full name, whatever its content, and
rendering it copies the content verbatim for every renderer and context. -/
theorem unmarked_name_stored_binary_verbatim (tr : TeraRender) (t : Templater)
    (name : List Char) (content : Bytes) (ctx : Ctx)
    (h : splitOnce teraPat name = none) :
    lookupA name (addRawTemplate t name content).binaries = some content
      ∧ renderTo tr (addRawTemplate t name content) name ctx = some content := by
  have hb : (addRawTemplate t name content).binaries = upsert name content t.binaries := by
    simp [addRawTemplate, h]
  refine ⟨?_, ?_⟩
  · rw [hb, lookupA_upsert_self]
  · unfold renderTo
    rw [hb, lookupA_upsert_self]

/-- Witness for C10 at a concrete unmarked name. -/
theorem unmarked_name_witness :
    lookupA "notes.txt".data
        (addRawTemplate Templater.default "notes.txt".data (strBytes "hi")).binaries
        = some (strBytes "hi")
      ∧ renderTo trW (addRawTemplate Templater.default "notes.txt".data (strBytes "hi"))
          "notes.txt".data [] = some (strBytes "hi") :=
  unmarked_name_stored_binary_verbatim trW Templater.default "notes.txt".data
    (strBytes "hi") [] (by decide)

/-- C4: license resolution and emission: the empty explicit list resolves to
Apache-2.0 and MIT and emits exactly the two files LICENSE-Apache-2.0 and
LICENSE-MIT; a list containing the NoLicense sentinel resolves to the empty
set; any other nonempty list wins unchanged; the license context variable
joins the resolved identifiers with the OR separator. -/
theorem license_resolution_and_emission :
    (∀ (env : Env) (fs : FS) (a m : Bytes),
        env.licenseAssets "Apache-2.0".data = some a →
        env.licenseAssets "MIT".data = some m →
        writeLicensesGo env fs (resolveLicense [])
          = (fsWrite "LICENSE-MIT".data m (fsWrite "LICENSE-Apache-2.0".data a fs),
             Option.none))
    ∧ (∀ l : List License, License.noLicense ∈ l → resolveLicense l = [])
    ∧ (∀ l : List License, l ≠ [] → License.noLicense ∉ l → resolveLicense l = l)
    ∧ licenseVar [] = "Apache-2.0 OR MIT".data
    ∧ (∀ l : List License, l ≠ [] → License.noLicense ∉ l →
        licenseVar l = joinSep " OR ".data (l.map License.toString)) := by
  have hc2 : ∀ l : List License, License.noLicense ∈ l → resolveLicense l = [] := by
    intro l hmem
    have hne : l.isEmpty = false := by
      cases l with
      | nil => simp at hmem
      | cons x xs => simp
    simp [resolveLicense, hne, hmem]
  have hc3 : ∀ l : List License, l ≠ [] → License.noLicense ∉ l → resolveLicense l = l := by
    intro l hne hmem
    have hne2 : l.isEmpty = false := by
      cases l with
      | nil => exact absurd rfl hne
      | cons x xs => simp
    simp [resolveLicense, hne2, hmem]
  refine ⟨?_, hc2, hc3, by decide, ?_⟩
  · intro env fs a m ha hm
    have e0 : resolveLicense [] = [License.apacheV2, License.mit] := by decide
    have e1 : "LICENSE-".data ++ License.apacheV2.toString = "LICENSE-Apache-2.0".data := by
      decide
    have e2 : "LICENSE-".data ++ License.mit.toString = "LICENSE-MIT".data := by decide
    have ha2 : env.licenseAssets License.apacheV2.toString = some a := ha
    have hm2 : env.licenseAssets License.mit.toString = some m := hm
    rw [e0]
    unfold writeLicensesGo
    rw [ha2, e1]
    unfold writeLicensesGo
    rw [hm2, e2]
    rfl
  · intro l h1 h2
    unfold licenseVar
    rw [hc3 l h1 h2]

/-- An archive whose single file entry carries the marker suffix, so its
stored name differs from its wrapper-stripped name. -/
def zipTeraName : List ZipEntry := [⟨"t/a.tera".data, true, strBytes "x"⟩]

/-- C5 counterexample: for the archive holding the single file a.tera under
a wrapper directory, the store name set is the singleton a, not the
wrapper-stripped file set singleton a.tera. -/
theorem zip_name_set_differs_from_file_set :
    (fromZip zipTeraName).map getTemplateNames = some ["a".data]
      ∧ (fromZip zipTeraName).map
          (fun t => decide ("a.tera".data ∈ getTemplateNames t)) = some false :=
  ⟨by decide, by decide⟩

/-- C5 amended: for every archive whose file entries decode as UTF-8 and
carry safe wrapper-prefixed names, the load succeeds and the store name set
equals the wrapper-stripped file set with the marker transform applied per
entry (one terminal marker suffix stripped, a name whose first marker
occurrence is not terminal kept whole); a UTF-8 file entry whose name fails
the safety check makes the whole load fail, so no traversal-escaping name is
ever admitted. -/
theorem from_zip_name_set_characterization (entries : List ZipEntry) :
    ((∀ e ∈ entries, e.isFile = true →
        (utf8Dec e.data).isSome ∧ (zipStoredName e.name).isSome) →
      ∃ t2, fromZip entries = some t2 ∧
        (getTemplateNames t2).toFinset =
          ((entries.filter (fun e => e.isFile)).filterMap
            (fun e => (zipStoredName e.name).map markerName)).toFinset)
    ∧ (∀ e ∈ entries, e.isFile = true → (utf8Dec e.data).isSome →
        zipStoredName e.name = none → fromZip entries = none) := by
  constructor
  · intro h
    obtain ⟨t2, hgo, hnames⟩ := fromZipGo_names entries Templater.default h
    refine ⟨t2, hgo, ?_⟩
    rw [hnames]
    simp [Templater.default, getTemplateNames]
  · intro e he hf hu hn
    exact fromZipGo_unsafe entries Templater.default e he hf hu hn

/-- Witness for the amended C5 theorem at a concrete safe archive. -/
theorem from_zip_name_set_witness :
    ∃ t2, fromZip zipSafe = some t2 ∧
      (getTemplateNames t2).toFinset =
        ((zipSafe.filter (fun e => e.isFile)).filterMap
          (fun e => (zipStoredName e.name).map markerName)).toFinset :=
  (from_zip_name_set_characterization zipSafe).1 (by decide)

/-- C6: CI emission is create-only: an existing file at a re-rooted output
path keeps its content through the whole emission, and when every applicable
output path already exists the emission returns the filesystem unchanged
with no error. -/
theorem ci_emission_create_only_skip (tr : TeraRender) (ciT : TeraMap) (ctx : Ctx)
    (cis : List ContinuousIntegration) (fs : FS) :
    (∀ (p : List Char) (c : Bytes), lookupA p fs = some c →
        lookupA p (writeCIAll tr ciT ctx fs cis).1 = some c)
    ∧ ((∀ q ∈ ciAllOutNames ciT cis, (lookupA q fs).isSome) →
        writeCIAll tr ciT ctx fs cis = (fs, Option.none)) :=
  ⟨fun p c h => writeCIAll_preserve tr ciT ctx cis fs p c h,
   fun h => writeCIAll_skip_all tr ciT ctx cis fs h⟩

/-- A CI registry holding one workflow entry for the github provider. -/
def ciTW : TeraMap := [("github/workflows/ci.yaml".data, "y".data)]

/-- A filesystem already holding the re-rooted output path of that entry. -/
def fsW : FS := [(".github/workflows/ci.yaml".data, strBytes "old")]

/-- Witness for C6 at a concrete conflicting filesystem. -/
theorem ci_emission_witness :
    lookupA ".github/workflows/ci.yaml".data
        (writeCIAll trW ciTW [] fsW [ContinuousIntegration.github]).1
        = some (strBytes "old")
      ∧ writeCIAll trW ciTW [] fsW [ContinuousIntegration.github] = (fsW, Option.none) :=
  ⟨(ci_emission_create_only_skip trW ciTW [] [ContinuousIntegration.github] fsW).1
      ".github/workflows/ci.yaml".data (strBytes "old") (by decide),
   (ci_emission_create_only_skip trW ciTW [] [ContinuousIntegration.github] fsW).2
      (by decide)⟩

/-- The store after adding the name x as binary content and then x.tera as
text content: the two entries share the resulting name x. -/
def storeCross : Templater :=
  addRawTemplate (addRawTemplate Templater.default "x".data (strBytes "B"))
    "x.tera".data (strBytes "T")

/-- C8 counterexample: after an add of x (binary class) followed by an add
of x.tera (text class, resulting name x), the name x is listed twice by
get_template_names, and rendering x yields the FIRST written binary content,
not the last written one. -/
theorem store_cross_class_duplicate :
    (getTemplateNames storeCross).count "x".data = 2
      ∧ renderTo trW storeCross "x".data [] = some (strBytes "B") :=
  ⟨by decide, by decide⟩

/-- C8 amended: a repeated add under the same resulting name overwrites the
first add (last writer wins) whenever both adds classify into the same map,
both for binary-class names and for marker-stripped text names; but two adds
whose classifications differ keep one entry in each map: the shared name is
then listed twice and rendering observes the binary content regardless of
the order of the two adds. -/
theorem add_last_writer_wins_same_class :
    (∀ (t : Templater) (n : List Char) (c1 c2 : Bytes),
        splitOnce teraPat n = none →
        addRawTemplate (addRawTemplate t n c1) n c2 = addRawTemplate t n c2)
    ∧ (∀ (t : Templater) (n p : List Char) (c1 c2 : Bytes) (s1 s2 : List Char),
        splitOnce teraPat n = some (p, []) → utf8Dec c1 = some s1 →
        utf8Dec c2 = some s2 →
        addRawTemplate (addRawTemplate t n c1) n c2 = addRawTemplate t n c2)
    ∧ (∀ (tr : TeraRender) (ctx : Ctx) (n m : List Char) (cb ct : Bytes) (s : List Char),
        splitOnce teraPat n = none → splitOnce teraPat m = some (n, []) →
        utf8Dec ct = some s →
        (getTemplateNames
            (addRawTemplate (addRawTemplate Templater.default n cb) m ct)).count n = 2
          ∧ renderTo tr (addRawTemplate (addRawTemplate Templater.default n cb) m ct)
              n ctx = some cb
          ∧ renderTo tr (addRawTemplate (addRawTemplate Templater.default m ct) n cb)
              n ctx = some cb) := by
  refine ⟨?_, ?_, ?_⟩
  · intro t n c1 c2 h
    simp [addRawTemplate, h, upsert_upsert_self]
  · intro t n p c1 c2 s1 s2 h h1 h2
    simp [addRawTemplate, h, h1, h2, upsert_upsert_self]
  · intro tr ctx n m cb ct s hn hm hct
    have e1 : addRawTemplate Templater.default n cb = ⟨[], [(n, cb)]⟩ := by
      simp [addRawTemplate, hn, Templater.default, upsert_nil]
    have e2 : addRawTemplate (⟨[], [(n, cb)]⟩ : Templater) m ct = ⟨[(n, s)], [(n, cb)]⟩ := by
      simp [addRawTemplate, hm, hct, upsert_nil]
    have e3 : addRawTemplate Templater.default m ct = ⟨[(n, s)], []⟩ := by
      simp [addRawTemplate, hm, hct, Templater.default, upsert_nil]
    have e4 : addRawTemplate (⟨[(n, s)], []⟩ : Templater) n cb = ⟨[(n, s)], [(n, cb)]⟩ := by
      simp [addRawTemplate, hn, upsert_nil]
    rw [e1, e2, e3, e4]
    refine ⟨?_, ?_, ?_⟩
    · simp [getTemplateNames, List.count_cons]
    · unfold renderTo
      rw [lookupA_cons, if_pos rfl]
    · unfold renderTo
      rw [lookupA_cons, if_pos rfl]

/-- Witness for the amended C8 theorem at concrete names and contents. -/
theorem add_last_writer_wins_witness :
    addRawTemplate (addRawTemplate Templater.default "x".data [0]) "x".data [1]
        = addRawTemplate Templater.default "x".data [1]
      ∧ ((getTemplateNames
            (addRawTemplate (addRawTemplate Templater.default "x".data [0])
              "x.tera".data (strBytes "T"))).count "x".data = 2
          ∧ renderTo trW
              (addRawTemplate (addRawTemplate Templater.default "x".data [0])
                "x.tera".data (strBytes "T")) "x".data [] = some [0]
          ∧ renderTo trW
              (addRawTemplate (addRawTemplate Templater.default "x.tera".data
                (strBytes "T")) "x".data [0]) "x".data [] = some [0]) :=
  ⟨add_last_writer_wins_same_class.1 Templater.default "x".data [0] [1] (by decide),
   add_last_writer_wins_same_class.2.2 trW [] "x".data "x.tera".data [0] (strBytes "T")
     "T".data (by decide) (by decide) (by decide)⟩

/-- An environment providing the embedded license texts for the two default
identifiers. -/
def envLic : Env :=
  ⟨some [], some "p".data, fun _ => false, fun _ => Option.none, fun _ => [], [], [],
   fun s =>
     if s = "Apache-2.0".data then some [65]
     else if s = "MIT".data then some [66] else Option.none⟩

/-- Witness for C4 at concrete license lists and assets. -/
theorem license_resolution_witness :
    writeLicensesGo envLic [] (resolveLicense [])
        = (fsWrite "LICENSE-MIT".data [66] (fsWrite "LICENSE-Apache-2.0".data [65] []),
           Option.none)
      ∧ resolveLicense [License.mit, License.noLicense] = []
      ∧ resolveLicense [License.cc0] = [License.cc0]
      ∧ licenseVar [License.cc0] = joinSep " OR ".data ([License.cc0].map License.toString) :=
  ⟨license_resolution_and_emission.1 envLic [] [65] [66] (by decide) (by decide),
   license_resolution_and_emission.2.1 [License.mit, License.noLicense] (by decide),
   license_resolution_and_emission.2.2.1 [License.cc0] (by decide) (by decide),
   license_resolution_and_emission.2.2.2.2 [License.cc0] (by decide) (by decide)⟩
